import Mathlib

/-!
# numGame: the session controller of `src/App.jsx`

A shallow embedding of the logic of the React component `App`:
the target generator `generateLevelNumber`, the five pieces of component
state, the event handlers `startRound`, `handleSubmit`, `resetGame`,
`continueFromCurrentLevel`, the `onChange` filter of the text input, and the
two callbacks handed to `setTimeout`.

Conventions of the embedding.

* A JavaScript string is a Lean `String`.  All strings the handlers build
  are ASCII, so the UTF-16 length of the source and `String.length` agree.
* `level` is a `Nat`.  The source holds it in a Number and only ever adds 1
  to it starting from 1, which is exact below `2 ^ 53`.
* `Math.random()` yields a binary64 value in `[0, 1)`.  Such a value is held
  as a pair `mant / 2 ^ exp` (`Draw`); the product with 9 or 10 is rounded
  to 53 significant bits, ties to even, as IEEE 754 multiplication does.
* `setTimeout` appends a record to the list of pending timers of the
  configuration; the source never calls `clearTimeout`, so no handler
  removes a record.  A record leaves the list when its callback runs.
* React re-renders between two events, so every handler reads the state
  left by the previous one.
-/

namespace NumGame

/-! ## Numbers: binary64 products and `Math.floor` -/

/-- A value `mant / 2 ^ exp` returned by `Math.random()`. -/
structure Draw where
  mant : Nat
  exp : Nat
deriving DecidableEq, Repr

/-- The pair denotes a binary64 value in `[0, 1)`: at most 53 significant
bits, exponent not below that of the smallest subnormal, value below one. -/
def Draw.valid (d : Draw) : Prop :=
  d.mant < 2 ^ 53 ∧ d.exp ≤ 1074 ∧ d.mant < 2 ^ d.exp

instance (d : Draw) : Decidable d.valid := by
  unfold Draw.valid
  infer_instance

/-- Number of binary digits of `n`, by halving at most `fuel` times. -/
def bitLengthAux : Nat → Nat → Nat
  | 0, _ => 0
  | fuel + 1, n => if n = 0 then 0 else bitLengthAux fuel (n / 2) + 1

/-- Number of binary digits of `n` (0 for 0). -/
def bitLength (n : Nat) : Nat := bitLengthAux n n

/-- Round `n` to 53 significant bits, to nearest, ties to even. -/
def roundTiesToEven (n : Nat) : Nat :=
  let s := bitLength n - 53
  let q := n / 2 ^ s
  let r := n % 2 ^ s
  if 2 * r < 2 ^ s then q * 2 ^ s
  else if 2 ^ s < 2 * r then (q + 1) * 2 ^ s
  else if q % 2 = 0 then q * 2 ^ s
  else (q + 1) * 2 ^ s

/-- The source expression `Math.floor(Math.random() * k)` for a small
integer `k`, where `Math.random()` returned `d`: the exact product
`d.mant * k / 2 ^ d.exp` is rounded to binary64 and then floored. -/
def floorRandomTimes (d : Draw) (k : Nat) : Nat :=
  roundTiesToEven (d.mant * k) / 2 ^ d.exp

/-! ## `generateLevelNumber` -/

/-- The body of the `for` loop of `generateLevelNumber`, run for the
`remaining` iterations that start at index `i` with accumulator `numStr`;
`rand i` is the value `Math.random()` returns in iteration `i`. -/
def generateLoop (rand : Nat → Draw) : Nat → Nat → String → String
  | 0, _, numStr => numStr
  | remaining + 1, i, numStr =>
      let digit :=
        if i = 0 then floorRandomTimes (rand i) 9 + 1
        else floorRandomTimes (rand i) 10
      generateLoop rand remaining (i + 1) (numStr ++ toString digit)

/-- The source function `generateLevelNumber(length)`. -/
def generateLevelNumber (rand : Nat → Draw) (length : Nat) : String :=
  generateLoop rand length 0 ""

/-! ## Component state -/

/-- The values the source gives to `gameState`. -/
inductive GameState where
  | ready
  | showing
  | input
  | correct
  | wrong
deriving DecidableEq, Repr

/-- The five `useState` cells of `App`. -/
structure Session where
  gameState : GameState
  level : Nat
  targetNumber : String
  userInput : String
  lastUserGuess : String
deriving DecidableEq, Repr

/-- The two arrow functions the source passes to `setTimeout`:
`showInput` is the one of `startRound`, `nextLevel` the one of
`handleSubmit`. -/
inductive Callback where
  | showInput
  | nextLevel
deriving DecidableEq, Repr

/-- A call `setTimeout(callback, delay)` whose callback has not run yet. -/
structure Timer where
  callback : Callback
  delay : Nat
deriving DecidableEq, Repr

/-- The component together with its pending timers, oldest first. -/
structure App where
  session : Session
  timers : List Timer
deriving DecidableEq, Repr

/-- The state of a freshly mounted component: the `useState` defaults and
no timer. -/
def initial : App :=
  { session :=
      { gameState := .ready, level := 1, targetNumber := "", userInput := "",
        lastUserGuess := "" },
    timers := [] }

/-! ## Handlers -/

/-- The local constant `displayTime` of `startRound`, as a function of
`numDigits`. -/
def displayTime (numDigits : Nat) : Nat := 2000 + numDigits * 400

/-- The handler `startRound`; `rand` is what `Math.random()` returns during
this call.  The callback is memoised on `[level]`, so the `level` it reads is
the current one. -/
def startRound (rand : Nat → Draw) (a : App) : App :=
  let numDigits := a.session.level
  let newNumber := generateLevelNumber rand numDigits
  { session :=
      { a.session with
        targetNumber := newNumber, userInput := "", gameState := .showing },
    timers := a.timers ++ [{ callback := .showInput, delay := displayTime numDigits }] }

/-- The handler `handleSubmit`.  Its call `e.preventDefault()` touches no
state cell and is left out. -/
def handleSubmit (a : App) : App :=
  if a.session.gameState ≠ .input then a
  else if a.session.userInput = a.session.targetNumber then
    { session :=
        { a.session with
          lastUserGuess := a.session.userInput, gameState := .correct },
      timers := a.timers ++ [{ callback := .nextLevel, delay := 2000 }] }
  else
    { session :=
        { a.session with
          lastUserGuess := a.session.userInput, gameState := .wrong },
      timers := a.timers }

/-- The handler `resetGame`. -/
def resetGame (a : App) : App :=
  { session :=
      { level := 1, targetNumber := "", userInput := "", lastUserGuess := "",
        gameState := .ready },
    timers := a.timers }

/-- The handler `continueFromCurrentLevel`. -/
def continueFromCurrentLevel (a : App) : App :=
  { session :=
      { a.session with userInput := "", lastUserGuess := "", gameState := .ready },
    timers := a.timers }

/-- The expression `value.replace(/\D/g, '')`: every character that is not
one of `0` to `9` is dropped. -/
def digitsOnly (raw : String) : String :=
  String.mk (raw.data.filter Char.isDigit)

/-- The `onChange` handler of the text input, for the raw value `raw`. -/
def onChange (raw : String) (a : App) : App :=
  { session := { a.session with userInput := digitsOnly raw },
    timers := a.timers }

/-- The body of a timer callback, run on the state current when it fires.
`showInput` is `setGameState('input')`; `nextLevel` is
`setLevel(prev => prev + 1); setGameState('ready')`. -/
def Callback.run : Callback → Session → Session
  | .showInput, s => { s with gameState := .input }
  | .nextLevel, s => { s with level := s.level + 1, gameState := .ready }

/-- The pending timer at position `i` fires: its callback runs and the
timer is no longer pending.  `none` when there is no such timer. -/
def fireTimer (i : Nat) (a : App) : Option App :=
  match a.timers.get? i with
  | none => none
  | some t => some { session := t.callback.run a.session, timers := a.timers.eraseIdx i }

/-- The `duration` prop the render gives to `TimerBar` while the state is
`showing`. -/
def timerBarDuration (s : Session) : Nat := 2000 + s.targetNumber.length * 400

/-! ## Events and reachable configurations -/

/-- What can happen to a mounted component. -/
inductive Event where
  | startRound (rand : Nat → Draw)
  | timeout (i : Nat)
  | change (raw : String)
  | submit
  | continueFromCurrentLevel
  | resetGame

/-- The effect of an event. -/
def Event.apply : Event → App → Option App
  | .startRound rand, a => some (NumGame.startRound rand a)
  | .timeout i, a => fireTimer i a
  | .change raw, a => some (onChange raw a)
  | .submit, a => some (handleSubmit a)
  | .continueFromCurrentLevel, a => some (NumGame.continueFromCurrentLevel a)
  | .resetGame, a => some (NumGame.resetGame a)

/-- The random values an event carries are binary64 values in `[0, 1)`. -/
def Event.admissible : Event → Prop
  | .startRound rand => ∀ i, (rand i).valid
  | _ => True

/-- Configurations reachable from `initial` when the handlers are invoked
in any order and any pending timer may fire. -/
inductive Reachable : App → Prop where
  | init : Reachable initial
  | step {a b : App} (e : Event) :
      Reachable a → e.admissible → e.apply a = some b → Reachable b

/-- State gating: the event's handler is invoked only while `gameState` is
a state whose screen draws its control.  The start button belongs to the
screen of `ready`, the restart button to the screens of `ready` (the source
draws it there once `level > 1`) and `wrong`, the continue button to the
screen of `wrong`, the text input takes typing in `input`, the form is
drawn in `input` and `correct`.  A timer needs no control.

This is not what the DOM offers: under `AnimatePresence mode="wait"` a
screen stays mounted while it animates out, so for instance the buttons of
the ready screen can still be clicked in `showing`. -/
def Event.gated : Event → GameState → Bool
  | .startRound _, g => g == .ready
  | .timeout _, _ => true
  | .change _, g => g == .input
  | .submit, g => g == .input || g == .correct
  | .continueFromCurrentLevel, g => g == .wrong
  | .resetGame, g => g == .ready || g == .wrong

/-- Configurations reachable from `initial` under state gating.  A user who
clicks a button of a screen that is animating out produces runs outside
this relation. -/
inductive ReachableGated : App → Prop where
  | init : ReachableGated initial
  | step {a b : App} (e : Event) :
      ReachableGated a → e.admissible → e.gated a.session.gameState = true →
      e.apply a = some b → ReachableGated b

/-- The relation between state, pending timers and target that holds in
every configuration reachable under state gating. -/
def GatedInvariant (a : App) : Prop :=
  match a.session.gameState with
  | .ready => a.timers = []
  | .showing =>
      a.timers = [{ callback := .showInput, delay := displayTime a.session.level }] ∧
      a.session.targetNumber.length = a.session.level
  | .input => a.timers = [] ∧ a.session.targetNumber.length = a.session.level
  | .correct =>
      a.timers = [{ callback := .nextLevel, delay := 2000 }] ∧
      a.session.targetNumber.length = a.session.level
  | .wrong => a.timers = [] ∧ a.session.targetNumber.length = a.session.level

/-! ## Sample inputs -/

/-- A random source whose every value is `11 / 16`. -/
def elevenSixteenths : Nat → Draw := fun _ => { mant := 11, exp := 4 }

/-- A configuration with no pending timer. -/
def App.ofSession (s : Session) : App := { session := s, timers := [] }

/-- The configuration right after the first round is won with target `7`:
state `correct`, the timer of the success pending. -/
def wonFirstRound : App :=
  { session :=
      { gameState := .correct, level := 1, targetNumber := "7", userInput := "7",
        lastUserGuess := "7" },
    timers := [{ callback := .nextLevel, delay := 2000 }] }

/-- The configuration `wonFirstRound` after its timer fired. -/
def afterFirstRound : App :=
  { session :=
      { gameState := .ready, level := 2, targetNumber := "7", userInput := "7",
        lastUserGuess := "7" },
    timers := [] }

/-- The start button clicked twice from `initial`: once in `ready` and once
more in `showing`, while the ready screen animates out. -/
def doubleStart : App :=
  startRound elevenSixteenths (startRound elevenSixteenths initial)

/-- At level 2, the start button and then the restart button of the ready
screen, the second click in `showing` while that screen animates out. -/
def restartWhileShowing : App :=
  resetGame (startRound elevenSixteenths afterFirstRound)

/-! ## Rounding never reaches the next integer -/

theorem two_pow_bitLengthAux_le (fuel : Nat) :
    ∀ n : Nat, n ≠ 0 → 2 ^ bitLengthAux fuel n ≤ 2 * n := by
  induction fuel with
  | zero =>
      intro n hn
      simp only [bitLengthAux, pow_zero]
      omega
  | succ f ih =>
      intro n hn
      simp only [bitLengthAux, if_neg hn, pow_succ]
      by_cases h2 : n / 2 = 0
      · have h0 : bitLengthAux f (n / 2) = 0 := by
          rw [h2]
          cases f <;> simp [bitLengthAux]
        rw [h0]
        omega
      · have := ih (n / 2) h2
        omega

theorem two_pow_bitLength_le (n : Nat) (hn : n ≠ 0) : 2 ^ bitLength n ≤ 2 * n :=
  two_pow_bitLengthAux_le n n hn

/-- The rounded value exceeds the exact one by at most the factor
`1 + 2 ^ (-53)`. -/
theorem roundTiesToEven_le (n : Nat) :
    2 ^ 53 * roundTiesToEven n ≤ (2 ^ 53 + 1) * n := by
  by_cases hs : bitLength n ≤ 53
  · have h0 : bitLength n - 53 = 0 := by omega
    have hr : roundTiesToEven n = n := by
      simp [roundTiesToEven, h0, Nat.mod_one]
    rw [hr]
    omega
  · have hn : n ≠ 0 := by
      rintro rfl
      simp [bitLength, bitLengthAux] at hs
    have hb := two_pow_bitLength_le n hn
    obtain ⟨s, hsdef⟩ : ∃ s, s = bitLength n - 53 := ⟨_, rfl⟩
    have hbs : bitLength n = s + 53 := by omega
    rw [hbs, pow_add] at hb
    have hP : 0 < 2 ^ s := by positivity
    have hdm := Nat.div_add_mod n (2 ^ s)
    have hrlt := Nat.mod_lt n hP
    have hcomm : n / 2 ^ s * 2 ^ s = 2 ^ s * (n / 2 ^ s) := Nat.mul_comm _ _
    have hsucc : (n / 2 ^ s + 1) * 2 ^ s = 2 ^ s * (n / 2 ^ s) + 2 ^ s := by ring
    simp only [roundTiesToEven, ← hsdef]
    generalize 2 ^ s * (n / 2 ^ s) = X at *
    generalize 2 ^ s = P at *
    generalize n % P = r at *
    split_ifs <;> simp only [hcomm, hsucc] <;> omega

/-- For a value `d` in `[0, 1)` the floor of the binary64 product `d * k`
is below `k`. -/
theorem floorRandomTimes_lt (d : Draw) (hd : d.valid) (k : Nat) (hk : 0 < k) :
    floorRandomTimes d k < k := by
  obtain ⟨hm, -, hlt⟩ := hd
  unfold floorRandomTimes
  apply Nat.div_lt_of_lt_mul
  have hr := roundTiesToEven_le (d.mant * k)
  have h1 : (2 ^ 53 + 1) * (d.mant * k) < 2 ^ 53 * (2 ^ d.exp * k) := by
    have hme : (2 ^ 53 + 1) * d.mant < 2 ^ 53 * 2 ^ d.exp := by
      generalize 2 ^ d.exp = E at *
      omega
    calc (2 ^ 53 + 1) * (d.mant * k) = ((2 ^ 53 + 1) * d.mant) * k := by ring
      _ < (2 ^ 53 * 2 ^ d.exp) * k := Nat.mul_lt_mul_of_pos_right hme hk
      _ = 2 ^ 53 * (2 ^ d.exp * k) := by ring
  exact Nat.lt_of_mul_lt_mul_left (lt_of_le_of_lt hr h1)

/-! ## The generated string -/

/-- The decimal numeral of a number below ten is one digit character, and
it is not the character zero unless the number is zero. -/
theorem toString_digit (d : Nat) (hd : d < 10) :
    ∃ c : Char, (toString d).data = [c] ∧ c ∈ "0123456789".data ∧
      (d ≠ 0 → c ∈ "123456789".data) := by
  interval_cases d
  · exact ⟨'0', rfl, by decide, fun h => absurd rfl h⟩
  · exact ⟨'1', rfl, by decide, fun _ => by decide⟩
  · exact ⟨'2', rfl, by decide, fun _ => by decide⟩
  · exact ⟨'3', rfl, by decide, fun _ => by decide⟩
  · exact ⟨'4', rfl, by decide, fun _ => by decide⟩
  · exact ⟨'5', rfl, by decide, fun _ => by decide⟩
  · exact ⟨'6', rfl, by decide, fun _ => by decide⟩
  · exact ⟨'7', rfl, by decide, fun _ => by decide⟩
  · exact ⟨'8', rfl, by decide, fun _ => by decide⟩
  · exact ⟨'9', rfl, by decide, fun _ => by decide⟩

/-- What the loop appends to its accumulator: one digit character per
iteration, the one of iteration 0 being none of the character zero. -/
theorem generateLoop_data (rand : Nat → Draw) (hr : ∀ i, (rand i).valid) :
    ∀ (remaining i : Nat) (numStr : String),
      ∃ l : List Char,
        (generateLoop rand remaining i numStr).data = numStr.data ++ l ∧
        l.length = remaining ∧
        (∀ c ∈ l, c ∈ "0123456789".data) ∧
        (i = 0 → ∀ c ∈ l.head?, c ∈ "123456789".data) := by
  intro remaining
  induction remaining with
  | zero =>
      intro i numStr
      exact ⟨[], by simp [generateLoop], rfl, by simp, by simp⟩
  | succ k ih =>
      intro i numStr
      have hlt : (if i = 0 then floorRandomTimes (rand i) 9 + 1
          else floorRandomTimes (rand i) 10) < 10 := by
        split_ifs
        · have := floorRandomTimes_lt (rand i) (hr i) 9 (by decide)
          omega
        · exact floorRandomTimes_lt (rand i) (hr i) 10 (by decide)
      obtain ⟨c, hc, hdig, hnz⟩ := toString_digit _ hlt
      obtain ⟨l, hl, hlen, hall, -⟩ := ih (i + 1)
        (numStr ++ toString (if i = 0 then floorRandomTimes (rand i) 9 + 1
          else floorRandomTimes (rand i) 10))
      refine ⟨c :: l, ?_, by simp [hlen], ?_, ?_⟩
      · simp only [generateLoop]
        rw [hl, String.data_append, hc]
        simp
      · intro x hx
        rcases List.mem_cons.mp hx with rfl | hx
        · exact hdig
        · exact hall x hx
      · intro hi x hx
        simp only [List.head?_cons, Option.mem_def, Option.some.injEq] at hx
        subst hx
        apply hnz
        simp [hi]

/-- The sample random source yields binary64 values in `[0, 1)`. -/
theorem elevenSixteenths_valid : ∀ i, (elevenSixteenths i).valid :=
  fun _ => (by decide : Draw.valid { mant := 11, exp := 4 })

/-- The generated string has as many characters as asked for. -/
theorem generateLevelNumber_length (rand : Nat → Draw) (hr : ∀ i, (rand i).valid)
    (length : Nat) : (generateLevelNumber rand length).length = length := by
  obtain ⟨l, hl, hlen, -, -⟩ := generateLoop_data rand hr length 0 ""
  have hd : (generateLevelNumber rand length).data = l := by
    simpa [generateLevelNumber] using hl
  rw [String.length, hd, hlen]

/-- C3. For every length `L ≥ 1` and every sequence of random values in
`[0, 1)`, `generateLevelNumber` returns a string of exactly `L` characters,
each one of `0` to `9`, the first one of `1` to `9`. -/
theorem generateLevelNumber_spec (rand : Nat → Draw) (L : Nat) (hL : 1 ≤ L)
    (hr : ∀ i, (rand i).valid) :
    (generateLevelNumber rand L).length = L ∧
    (∀ c ∈ (generateLevelNumber rand L).data, c ∈ "0123456789".data) ∧
    (∃ c rest, (generateLevelNumber rand L).data = c :: rest ∧
      c ∈ "123456789".data) := by
  obtain ⟨l, hl, hlen, hall, hhead⟩ := generateLoop_data rand hr L 0 ""
  have hd : (generateLevelNumber rand L).data = l := by
    simpa [generateLevelNumber] using hl
  refine ⟨?_, ?_, ?_⟩
  · rw [String.length, hd, hlen]
  · rw [hd]
    exact hall
  · rw [hd]
    cases l with
    | nil =>
        simp at hlen
        omega
    | cons c rest => exact ⟨c, rest, rfl, hhead rfl c rfl⟩

/-- C3 at length 3 with every random value equal to `11 / 16`. -/
theorem generateLevelNumber_spec_witness :
    1 ≤ 3 ∧ (∀ i, (elevenSixteenths i).valid) ∧
    (generateLevelNumber elevenSixteenths 3).length = 3 ∧
    (∀ c ∈ (generateLevelNumber elevenSixteenths 3).data, c ∈ "0123456789".data) ∧
    (∃ c rest, (generateLevelNumber elevenSixteenths 3).data = c :: rest ∧
      c ∈ "123456789".data) :=
  ⟨by decide, elevenSixteenths_valid,
    generateLevelNumber_spec elevenSixteenths 3 (by decide) elevenSixteenths_valid⟩

/-! ## `handleSubmit` -/

/-- C1. In state `input`, `handleSubmit` moves to `correct` exactly when
`userInput` and `targetNumber` are the same sequence of characters and to
`wrong` exactly when they are not; `lastUserGuess` becomes the `userInput`
held at that moment, `targetNumber` and `level` keep their values. -/
theorem handleSubmit_input (a : App) (h : a.session.gameState = .input) :
    ((handleSubmit a).session.gameState = .correct ↔
      a.session.userInput.data = a.session.targetNumber.data) ∧
    ((handleSubmit a).session.gameState = .wrong ↔
      a.session.userInput.data ≠ a.session.targetNumber.data) ∧
    (handleSubmit a).session.lastUserGuess = a.session.userInput ∧
    (handleSubmit a).session.targetNumber = a.session.targetNumber ∧
    (handleSubmit a).session.level = a.session.level := by
  have hd : a.session.userInput.data = a.session.targetNumber.data ↔
      a.session.userInput = a.session.targetNumber := String.ext_iff.symm
  by_cases heq : a.session.userInput = a.session.targetNumber
  · simp [handleSubmit, h, heq]
  · simp [handleSubmit, h, heq, hd]

/-- C1 on the two examples of the specification: target `042` against input
`42`, and level 3 with target `482` against input `481`. -/
theorem handleSubmit_input_witness :
    (handleSubmit (App.ofSession
      { gameState := .input, level := 3, targetNumber := "042", userInput := "42",
        lastUserGuess := "" })).session.gameState = .wrong ∧
    (handleSubmit (App.ofSession
      { gameState := .input, level := 3, targetNumber := "482", userInput := "481",
        lastUserGuess := "" })).session.gameState = .wrong ∧
    (handleSubmit (App.ofSession
      { gameState := .input, level := 3, targetNumber := "482", userInput := "481",
        lastUserGuess := "" })).session.lastUserGuess = "481" ∧
    (handleSubmit (App.ofSession
      { gameState := .input, level := 3, targetNumber := "482", userInput := "481",
        lastUserGuess := "" })).session.targetNumber = "482" :=
  ⟨(handleSubmit_input _ rfl).2.1.mpr (by decide),
    (handleSubmit_input _ rfl).2.1.mpr (by decide),
    (handleSubmit_input _ rfl).2.2.1,
    (handleSubmit_input _ rfl).2.2.2.1⟩

/-- C2. In the states `ready`, `showing`, `correct` and `wrong`,
`handleSubmit` changes none of the five state cells and schedules no
timer. -/
theorem handleSubmit_ignored (a : App)
    (h : a.session.gameState = .ready ∨ a.session.gameState = .showing ∨
      a.session.gameState = .correct ∨ a.session.gameState = .wrong) :
    (handleSubmit a).session = a.session ∧ (handleSubmit a).timers = a.timers := by
  have hne : a.session.gameState ≠ .input := by
    rcases h with h | h | h | h <;> rw [h] <;> decide
  simp [handleSubmit, hne]

/-- C2 in state `correct` while the timer of the success is pending. -/
theorem handleSubmit_ignored_witness :
    (handleSubmit
      { session :=
          { gameState := .correct, level := 1, targetNumber := "7", userInput := "7",
            lastUserGuess := "7" },
        timers := [{ callback := .nextLevel, delay := 2000 }] }).session =
      { gameState := .correct, level := 1, targetNumber := "7", userInput := "7",
        lastUserGuess := "7" } ∧
    (handleSubmit
      { session :=
          { gameState := .correct, level := 1, targetNumber := "7", userInput := "7",
            lastUserGuess := "7" },
        timers := [{ callback := .nextLevel, delay := 2000 }] }).timers =
      [{ callback := .nextLevel, delay := 2000 }] :=
  handleSubmit_ignored _ (Or.inr (Or.inr (Or.inl rfl)))

/-- The timer scheduled last fires: its callback runs on the current state
and the older timers stay pending. -/
theorem fireTimer_last (s : Session) (ts : List Timer) (t : Timer) :
    fireTimer ts.length { session := s, timers := ts ++ [t] } =
      some { session := t.callback.run s, timers := ts } := by
  have hget : (ts ++ [t]).get? ts.length = some t := by
    induction ts with
    | nil => rfl
    | cons x xs ih => simp
  have herase : (ts ++ [t]).eraseIdx ts.length = ts := by
    induction ts with
    | nil => rfl
    | cons x xs ih => simpa using ih
  simp only [fireTimer, hget, herase]

/-- C4. In state `input` at level `L` with `userInput` equal to
`targetNumber`, `handleSubmit` moves to `correct` at the same level and
schedules the callback `nextLevel` with delay 2000; when that timer fires,
the level is `L + 1` and the state is `ready`. -/
theorem handleSubmit_correct_then_timer (a : App) (L : Nat)
    (hL : a.session.level = L) (h : a.session.gameState = .input)
    (heq : a.session.userInput = a.session.targetNumber) :
    (handleSubmit a).session.gameState = .correct ∧
    (handleSubmit a).session.level = L ∧
    (handleSubmit a).timers = a.timers ++ [{ callback := .nextLevel, delay := 2000 }] ∧
    ∃ b, fireTimer a.timers.length (handleSubmit a) = some b ∧
      b.session.level = L + 1 ∧ b.session.gameState = .ready := by
  have hs : handleSubmit a =
      { session :=
          { a.session with
            lastUserGuess := a.session.userInput, gameState := .correct },
        timers := a.timers ++ [{ callback := .nextLevel, delay := 2000 }] } := by
    simp [handleSubmit, h, heq]
  refine ⟨by rw [hs], by rw [hs, ← hL], by rw [hs], ?_⟩
  rw [hs, fireTimer_last]
  exact ⟨_, rfl, by simp [Callback.run, hL], rfl⟩

/-- C4 on the example of the specification: level 1, target `7`, input `7`
ends at level 2 in state `ready`. -/
theorem handleSubmit_correct_then_timer_witness :
    (handleSubmit (App.ofSession
      { gameState := .input, level := 1, targetNumber := "7", userInput := "7",
        lastUserGuess := "" })).session.gameState = .correct ∧
    (handleSubmit (App.ofSession
      { gameState := .input, level := 1, targetNumber := "7", userInput := "7",
        lastUserGuess := "" })).session.level = 1 ∧
    (handleSubmit (App.ofSession
      { gameState := .input, level := 1, targetNumber := "7", userInput := "7",
        lastUserGuess := "" })).timers = [{ callback := .nextLevel, delay := 2000 }] ∧
    ∃ b, fireTimer 0 (handleSubmit (App.ofSession
      { gameState := .input, level := 1, targetNumber := "7", userInput := "7",
        lastUserGuess := "" })) = some b ∧
      b.session.level = 2 ∧ b.session.gameState = .ready :=
  handleSubmit_correct_then_timer (App.ofSession
      { gameState := .input, level := 1, targetNumber := "7", userInput := "7",
        lastUserGuess := "" }) 1 rfl rfl rfl

/-! ## `resetGame` and `continueFromCurrentLevel` -/

/-- C5. From every configuration, whatever its state, level and strings,
`resetGame` yields level 1, empty `userInput`, empty `lastUserGuess` and
state `ready`. -/
theorem resetGame_spec (a : App) :
    (resetGame a).session.level = 1 ∧
    (resetGame a).session.userInput = "" ∧
    (resetGame a).session.lastUserGuess = "" ∧
    (resetGame a).session.gameState = .ready :=
  ⟨rfl, rfl, rfl, rfl⟩

/-- C6. From state `wrong` at level `L`, `continueFromCurrentLevel` yields
state `ready` with level still `L`, empty `userInput` and empty
`lastUserGuess`. -/
theorem continueFromCurrentLevel_spec (a : App) (L : Nat)
    (hL : a.session.level = L) (_h : a.session.gameState = .wrong) :
    (continueFromCurrentLevel a).session.gameState = .ready ∧
    (continueFromCurrentLevel a).session.level = L ∧
    (continueFromCurrentLevel a).session.userInput = "" ∧
    (continueFromCurrentLevel a).session.lastUserGuess = "" :=
  ⟨rfl, hL, rfl, rfl⟩

/-- C6 after the wrong answer `481` to the target `482` at level 3. -/
theorem continueFromCurrentLevel_spec_witness :
    (continueFromCurrentLevel (App.ofSession
      { gameState := .wrong, level := 3, targetNumber := "482", userInput := "481",
        lastUserGuess := "481" })).session.gameState = .ready ∧
    (continueFromCurrentLevel (App.ofSession
      { gameState := .wrong, level := 3, targetNumber := "482", userInput := "481",
        lastUserGuess := "481" })).session.level = 3 ∧
    (continueFromCurrentLevel (App.ofSession
      { gameState := .wrong, level := 3, targetNumber := "482", userInput := "481",
        lastUserGuess := "481" })).session.userInput = "" ∧
    (continueFromCurrentLevel (App.ofSession
      { gameState := .wrong, level := 3, targetNumber := "482", userInput := "481",
        lastUserGuess := "481" })).session.lastUserGuess = "" :=
  continueFromCurrentLevel_spec _ 3 rfl rfl

/-! ## Reachable configurations -/

/-- What state gating reaches, the handlers in any order reach too. -/
theorem reachableGated_reachable {a : App} (h : ReachableGated a) : Reachable a := by
  induction h with
  | init => exact Reachable.init
  | step e _ hadm _ happ ih => exact Reachable.step e ih hadm happ

/-- Whatever the order of the events, the target is never longer than the
level. -/
theorem reachable_target_le {a : App} (h : Reachable a) :
    a.session.targetNumber.length ≤ a.session.level := by
  induction h with
  | init => decide
  | @step a b e _ hadm happ ih =>
      cases e with
      | startRound rand =>
          simp only [Event.apply, Option.some.injEq] at happ
          subst happ
          exact le_of_eq (generateLevelNumber_length rand hadm _)
      | timeout i =>
          simp only [Event.apply, fireTimer] at happ
          split at happ
          · exact absurd happ (by simp)
          · rename_i t _
            simp only [Option.some.injEq] at happ
            subst happ
            cases t.callback <;> simp only [Callback.run] <;> omega
      | change raw =>
          simp only [Event.apply, Option.some.injEq] at happ
          subst happ
          exact ih
      | submit =>
          simp only [Event.apply, Option.some.injEq] at happ
          subst happ
          unfold handleSubmit
          split_ifs <;> exact ih
      | continueFromCurrentLevel =>
          simp only [Event.apply, Option.some.injEq] at happ
          subst happ
          exact ih
      | resetGame =>
          simp only [Event.apply, Option.some.injEq] at happ
          subst happ
          show "".length ≤ 1
          decide


/-- Under state gating, at most one timer is pending, it is the
one of the current state, and outside `ready` the target has `level`
characters. -/
theorem reachableGated_invariant {a : App} (h : ReachableGated a) : GatedInvariant a := by
  induction h with
  | init => exact (rfl : initial.timers = [])
  | @step a b e _ hadm hren happ ih =>
      obtain ⟨⟨g, lvl, tgt, ui, lg⟩, ts⟩ := a
      cases e with
      | startRound rand =>
          simp only [Event.apply, Option.some.injEq] at happ
          subst happ
          cases g <;> simp [Event.gated] at hren
          simp only [GatedInvariant] at ih
          simp only [GatedInvariant, startRound, ih, List.nil_append, true_and]
          exact generateLevelNumber_length rand hadm lvl
      | timeout i =>
          simp only [Event.apply, fireTimer] at happ
          cases g <;> simp only [GatedInvariant] at ih
          · subst ih
            simp at happ
          · obtain ⟨rfl, hlen⟩ := ih
            cases i with
            | zero =>
                simp at happ
                subst happ
                simpa [GatedInvariant, Callback.run] using hlen
            | succ j => simp at happ
          · obtain ⟨rfl, hlen⟩ := ih
            simp at happ
          · obtain ⟨rfl, hlen⟩ := ih
            cases i with
            | zero =>
                simp at happ
                subst happ
                simp [GatedInvariant, Callback.run]
            | succ j => simp at happ
          · obtain ⟨rfl, hlen⟩ := ih
            simp at happ
      | change raw =>
          simp only [Event.apply, Option.some.injEq] at happ
          subst happ
          cases g <;> simp [Event.gated] at hren
          simpa [GatedInvariant, onChange] using ih
      | submit =>
          simp only [Event.apply, Option.some.injEq] at happ
          subst happ
          cases g <;> simp [Event.gated] at hren
          · simp only [GatedInvariant] at ih
            obtain ⟨rfl, hlen⟩ := ih
            by_cases heq : ui = tgt
            · simpa [GatedInvariant, handleSubmit, heq] using hlen
            · simpa [GatedInvariant, handleSubmit, heq] using hlen
          · simpa [GatedInvariant, handleSubmit] using ih
      | continueFromCurrentLevel =>
          simp only [Event.apply, Option.some.injEq] at happ
          subst happ
          cases g <;> simp [Event.gated] at hren
          simp only [GatedInvariant] at ih
          simpa [GatedInvariant, continueFromCurrentLevel] using ih.1
      | resetGame =>
          simp only [Event.apply, Option.some.injEq] at happ
          subst happ
          cases g <;> simp [Event.gated] at hren
          · simpa [GatedInvariant, resetGame] using ih
          · simp only [GatedInvariant] at ih
            simpa [GatedInvariant, resetGame] using ih.1

/-- The round of level 1 played with target `7` and answer `7` reaches
`wonFirstRound` under state gating. -/
theorem reachableGated_wonFirstRound : ReachableGated wonFirstRound := by
  have h1 : ReachableGated (startRound elevenSixteenths initial) :=
    ReachableGated.step (.startRound elevenSixteenths) .init elevenSixteenths_valid rfl rfl
  have h2 : ReachableGated
      { session :=
          { gameState := .input, level := 1, targetNumber := "7", userInput := "",
            lastUserGuess := "" },
        timers := [] } :=
    ReachableGated.step (.timeout 0) h1 trivial rfl (by decide)
  have h3 := ReachableGated.step (.change "7") h2 trivial rfl rfl
  exact ReachableGated.step .submit h3 trivial rfl (by decide)

/-- The timer of the first success fires: `afterFirstRound` is reached
under state gating. -/
theorem reachableGated_afterFirstRound : ReachableGated afterFirstRound :=
  ReachableGated.step (.timeout 0) reachableGated_wonFirstRound trivial rfl (by decide)

/-! ## Timers -/

/-- C10. At every level `L` (so at every `L ≥ 1`), `startRound` schedules
the callback `showInput` with delay `2000 + 400 * L`; the duration the
render gives to `TimerBar` in the resulting `showing` state, `2000 + 400 *`
the length of the target, is the same number; and the delay is strictly
increasing in the level. -/
theorem startRound_displayTime (rand : Nat → Draw) (hr : ∀ i, (rand i).valid)
    (a : App) (L : Nat) (ha : a.session.level = L) :
    (startRound rand a).session.gameState = .showing ∧
    (startRound rand a).timers =
      a.timers ++ [{ callback := .showInput, delay := 2000 + 400 * L }] ∧
    timerBarDuration (startRound rand a).session = 2000 + 400 * L ∧
    displayTime L = 2000 + 400 * L ∧
    (∀ L₁ L₂ : Nat, L₁ < L₂ → displayTime L₁ < displayTime L₂) := by
  subst ha
  have hlen : (generateLevelNumber rand a.session.level).length = a.session.level :=
    generateLevelNumber_length rand hr _
  refine ⟨rfl, ?_, ?_, ?_, ?_⟩
  · simp only [startRound, displayTime]
    rw [Nat.mul_comm a.session.level 400]
  · simp only [timerBarDuration, startRound, hlen]
    rw [Nat.mul_comm a.session.level 400]
  · simp only [displayTime]
    rw [Nat.mul_comm a.session.level 400]
  · intro L₁ L₂ h
    simp only [displayTime]
    omega

/-- C10 at level 3: the delay and the `TimerBar` duration are both 3200. -/
theorem startRound_displayTime_witness :
    (startRound elevenSixteenths (App.ofSession
      { gameState := .ready, level := 3, targetNumber := "", userInput := "",
        lastUserGuess := "" })).session.gameState = .showing ∧
    (startRound elevenSixteenths (App.ofSession
      { gameState := .ready, level := 3, targetNumber := "", userInput := "",
        lastUserGuess := "" })).timers =
      [] ++ [{ callback := .showInput, delay := 2000 + 400 * 3 }] ∧
    timerBarDuration (startRound elevenSixteenths (App.ofSession
      { gameState := .ready, level := 3, targetNumber := "", userInput := "",
        lastUserGuess := "" })).session = 2000 + 400 * 3 ∧
    displayTime 3 = 2000 + 400 * 3 ∧
    (∀ L₁ L₂ : Nat, L₁ < L₂ → displayTime L₁ < displayTime L₂) :=
  startRound_displayTime elevenSixteenths elevenSixteenths_valid (App.ofSession
      { gameState := .ready, level := 3, targetNumber := "", userInput := "",
        lastUserGuess := "" }) 3 rfl

/-- C7 fails: `resetGame` invoked in state `showing` leaves the timer of
`startRound` pending, and when it fires the state goes from `ready` to
`input`. -/
theorem stale_timer_counterexample :
    (startRound elevenSixteenths initial).session.gameState = .showing ∧
    (resetGame (startRound elevenSixteenths initial)).session.gameState = .ready ∧
    (resetGame (startRound elevenSixteenths initial)).timers =
      [{ callback := .showInput, delay := 2400 }] ∧
    fireTimer 0 (resetGame (startRound elevenSixteenths initial)) =
      some { session :=
              { gameState := .input, level := 1, targetNumber := "", userInput := "",
                lastUserGuess := "" },
             timers := [] } ∧
    ¬ ∀ b, fireTimer 0 (resetGame (startRound elevenSixteenths initial)) = some b →
        b.session.gameState = .ready := by
  refine ⟨rfl, rfl, rfl, by decide, ?_⟩
  intro h
  exact absurd (h _ (by decide : fireTimer 0 (resetGame (startRound elevenSixteenths initial)) =
      some { session :=
              { gameState := .input, level := 1, targetNumber := "", userInput := "",
                lastUserGuess := "" },
             timers := [] })) (by decide)

/-- C7 as amended. No handler cancels a timer and a callback acts on
whatever state it finds: `resetGame` right after `startRound` yields state
`ready` with the timer of `startRound` still pending, and when that timer
fires the state becomes `input`, at level 1 with an empty target.  The
callback `showInput` always sets the state to `input`; the callback
`nextLevel` always adds 1 to the level and sets the state to `ready`. -/
theorem stale_timer_fires (rand : Nat → Draw) (a : App) :
    (startRound rand a).session.gameState = .showing ∧
    (resetGame (startRound rand a)).session.gameState = .ready ∧
    (resetGame (startRound rand a)).timers =
      a.timers ++ [{ callback := .showInput, delay := displayTime a.session.level }] ∧
    fireTimer a.timers.length (resetGame (startRound rand a)) =
      some { session :=
              { gameState := .input, level := 1, targetNumber := "", userInput := "",
                lastUserGuess := "" },
             timers := a.timers } ∧
    (∀ s : Session, Callback.run .showInput s = { s with gameState := .input }) ∧
    (∀ s : Session, Callback.run .nextLevel s =
      { s with level := s.level + 1, gameState := .ready }) := by
  refine ⟨rfl, rfl, rfl, ?_, fun _ => rfl, fun _ => rfl⟩
  have h : resetGame (startRound rand a) =
      { session :=
          { gameState := .ready, level := 1, targetNumber := "", userInput := "",
            lastUserGuess := "" },
        timers := a.timers ++
          [{ callback := .showInput, delay := displayTime a.session.level }] } := rfl
  rw [h, fireTimer_last]
  rfl

/-- C9 fails: in the reachable configuration `wonFirstRound`, of state
`correct`, the timer fires and leaves `userInput` and `lastUserGuess` equal
to `7`. -/
theorem nextLevel_clears_counterexample :
    ReachableGated wonFirstRound ∧
    wonFirstRound.session.gameState = .correct ∧
    fireTimer 0 wonFirstRound = some afterFirstRound ∧
    (Callback.run .nextLevel wonFirstRound.session).userInput ≠ "" ∧
    (Callback.run .nextLevel wonFirstRound.session).lastUserGuess ≠ "" :=
  ⟨reachableGated_wonFirstRound, rfl, by decide, by decide, by decide⟩

/-- C9 as amended. The callback of the post-success timer adds 1 to
`level` and sets the state to `ready`; `userInput`, `lastUserGuess` and
`targetNumber` keep their values.  The `startRound` that follows empties
`userInput` and leaves `lastUserGuess` as it is. -/
theorem nextLevel_keeps_input (s : Session) (ts : List Timer) (rand : Nat → Draw) :
    (Callback.run .nextLevel s).level = s.level + 1 ∧
    (Callback.run .nextLevel s).gameState = .ready ∧
    (Callback.run .nextLevel s).userInput = s.userInput ∧
    (Callback.run .nextLevel s).lastUserGuess = s.lastUserGuess ∧
    (Callback.run .nextLevel s).targetNumber = s.targetNumber ∧
    (startRound rand
      { session := Callback.run .nextLevel s, timers := ts }).session.userInput = "" ∧
    (startRound rand
      { session := Callback.run .nextLevel s, timers := ts }).session.lastUserGuess =
      s.lastUserGuess :=
  ⟨rfl, rfl, rfl, rfl, rfl, rfl, rfl⟩

/-! ## The length of the target -/

/-- C8 fails: `afterFirstRound` is reachable, under state gating already,
and there the target `7` is non-empty with length 1 while the
level is 2. -/
theorem target_length_counterexample :
    ReachableGated afterFirstRound ∧
    Reachable afterFirstRound ∧
    afterFirstRound.session.targetNumber ≠ "" ∧
    afterFirstRound.session.targetNumber.length ≠ afterFirstRound.session.level :=
  ⟨reachableGated_afterFirstRound, reachableGated_reachable reachableGated_afterFirstRound,
    by decide, by decide⟩

/-- Every event other than the firing of a `nextLevel` timer keeps the
target empty or of `level` characters. -/
theorem target_shape_kept (e : Event) (a b : App) (hadm : e.admissible)
    (happ : e.apply a = some b)
    (hcb : ∀ i t, e = .timeout i → a.timers.get? i = some t → t.callback = .showInput)
    (ha : a.session.targetNumber = "" ∨
      a.session.targetNumber.length = a.session.level) :
    b.session.targetNumber = "" ∨ b.session.targetNumber.length = b.session.level := by
  cases e with
  | startRound rand =>
      simp only [Event.apply, Option.some.injEq] at happ
      subst happ
      exact Or.inr (generateLevelNumber_length rand hadm _)
  | timeout i =>
      simp only [Event.apply, fireTimer] at happ
      split at happ
      · exact absurd happ (by simp)
      · rename_i t ht
        simp only [Option.some.injEq] at happ
        subst happ
        rw [hcb i t rfl ht]
        exact ha
  | change raw =>
      simp only [Event.apply, Option.some.injEq] at happ
      subst happ
      exact ha
  | submit =>
      simp only [Event.apply, Option.some.injEq] at happ
      subst happ
      unfold handleSubmit
      split_ifs <;> exact ha
  | continueFromCurrentLevel =>
      simp only [Event.apply, Option.some.injEq] at happ
      subst happ
      exact ha
  | resetGame =>
      simp only [Event.apply, Option.some.injEq] at happ
      subst happ
      exact Or.inl rfl

/-- C8 as amended. In every configuration reachable from `initial` by the
events in any order the target has at most `level` characters.
`startRound` makes the length equal to `level`; every event other than the
firing of a post-success timer keeps the target empty or of `level`
characters; the firing of a post-success timer adds 1 to `level` and leaves
the target as it is. -/
theorem target_length_reachable (a : App) (h : Reachable a) :
    a.session.targetNumber.length ≤ a.session.level ∧
    (∀ rand : Nat → Draw, (∀ i, (rand i).valid) →
      (startRound rand a).session.targetNumber.length =
        (startRound rand a).session.level) ∧
    (∀ (e : Event) (b : App), e.admissible → e.apply a = some b →
      (∀ i t, e = .timeout i → a.timers.get? i = some t → t.callback = .showInput) →
      (a.session.targetNumber = "" ∨
        a.session.targetNumber.length = a.session.level) →
      (b.session.targetNumber = "" ∨
        b.session.targetNumber.length = b.session.level)) ∧
    (∀ (i : Nat) (t : Timer) (b : App), a.timers.get? i = some t →
      t.callback = .nextLevel → fireTimer i a = some b →
      b.session.level = a.session.level + 1 ∧
        b.session.targetNumber = a.session.targetNumber) := by
  refine ⟨reachable_target_le h, ?_, ?_, ?_⟩
  · intro rand hr
    exact generateLevelNumber_length rand hr _
  · intro e b hadm happ hcb ha
    exact target_shape_kept e a b hadm happ hcb ha
  · intro i t b ht hcb hb
    simp only [fireTimer, ht, Option.some.injEq] at hb
    subst hb
    rw [hcb]
    exact ⟨rfl, rfl⟩

/-- C8 as amended, at `wonFirstRound`: target `7` at level 1; a further
`startRound` gives a target of 1 character; the pending timer fires and
leaves target `7` at level 2. -/
theorem target_length_reachable_witness :
    Reachable wonFirstRound ∧
    wonFirstRound.session.targetNumber.length ≤ wonFirstRound.session.level ∧
    (startRound elevenSixteenths wonFirstRound).session.targetNumber.length =
      (startRound elevenSixteenths wonFirstRound).session.level ∧
    afterFirstRound.session.level = wonFirstRound.session.level + 1 ∧
    afterFirstRound.session.targetNumber = wonFirstRound.session.targetNumber :=
  ⟨reachableGated_reachable reachableGated_wonFirstRound,
    (target_length_reachable wonFirstRound
      (reachableGated_reachable reachableGated_wonFirstRound)).1,
    (target_length_reachable wonFirstRound
      (reachableGated_reachable reachableGated_wonFirstRound)).2.1
      elevenSixteenths elevenSixteenths_valid,
    ((target_length_reachable wonFirstRound
      (reachableGated_reachable reachableGated_wonFirstRound)).2.2.2
      0 { callback := .nextLevel, delay := 2000 } afterFirstRound rfl rfl
      (by decide)).1,
    ((target_length_reachable wonFirstRound
      (reachableGated_reachable reachableGated_wonFirstRound)).2.2.2
      0 { callback := .nextLevel, delay := 2000 } afterFirstRound rfl rfl
      (by decide)).2⟩

/-! ## The input filter -/

/-- The library test `Char.isDigit` holds exactly for the ten characters
`0` to `9`. -/
theorem isDigit_iff_mem (c : Char) : c.isDigit = true ↔ c ∈ "0123456789".data := by
  constructor
  · intro h
    have h1 : 48 ≤ c.val.toNat ∧ c.val.toNat ≤ 57 := by
      simp only [Char.isDigit, Bool.and_eq_true, decide_eq_true_eq] at h
      exact ⟨h.1, h.2⟩
    have hc : c = Char.ofNat c.val.toNat := (Char.ofNat_toNat c).symm
    obtain ⟨lo, hi⟩ := h1
    generalize c.val.toNat = n at hc lo hi
    subst hc
    interval_cases n <;> decide
  · intro h
    simp only [List.mem_cons, List.mem_singleton] at h
    rcases h with h | h | h | h | h | h | h | h | h | h | h
    all_goals first | (subst h; rfl) | simp at h
/-- Every handler and callback leaves `userInput` as it is, empties it, or
stores a filtered string. -/
theorem userInput_assignments (e : Event) (a b : App) (h : e.apply a = some b) :
    b.session.userInput = a.session.userInput ∨ b.session.userInput = "" ∨
      ∃ raw, b.session.userInput = digitsOnly raw := by
  cases e with
  | startRound rand =>
      simp only [Event.apply, Option.some.injEq] at h
      subst h
      exact Or.inr (Or.inl rfl)
  | timeout i =>
      simp only [Event.apply, fireTimer] at h
      split at h
      · exact absurd h (by simp)
      · rename_i t _
        simp only [Option.some.injEq] at h
        subst h
        cases t.callback <;> exact Or.inl rfl
  | change raw =>
      simp only [Event.apply, Option.some.injEq] at h
      subst h
      exact Or.inr (Or.inr ⟨raw, rfl⟩)
  | submit =>
      simp only [Event.apply, Option.some.injEq] at h
      subst h
      unfold handleSubmit
      split_ifs <;> exact Or.inl rfl
  | continueFromCurrentLevel =>
      simp only [Event.apply, Option.some.injEq] at h
      subst h
      exact Or.inr (Or.inl rfl)
  | resetGame =>
      simp only [Event.apply, Option.some.injEq] at h
      subst h
      exact Or.inr (Or.inl rfl)

/-- Whatever the order of the events, `userInput` holds digit characters
only. -/
theorem reachable_userInput_isDigit {a : App} (h : Reachable a) :
    ∀ c ∈ a.session.userInput.data, c.isDigit = true := by
  induction h with
  | init =>
      intro c hc
      simp [initial] at hc
  | @step a b e _ _ happ ih =>
      rcases userInput_assignments e a b happ with hu | hu | ⟨raw, hu⟩
      · rw [hu]
        exact ih
      · rw [hu]
        intro c hc
        simp at hc
      · rw [hu]
        intro c hc
        simp only [digitsOnly, List.mem_filter] at hc
        exact hc.2

/-- C11. For every raw string the filter of the text input returns the
subsequence, in order, of its characters that are one of `0` to `9`; every
event leaves `userInput` unchanged, empty, or equal to a filtered string;
and in every reachable configuration `userInput` holds characters `0` to
`9` only. -/
theorem userInput_digits (raw : String) (a : App) (h : Reachable a) :
    (digitsOnly raw).data = raw.data.filter (fun c => decide (c ∈ "0123456789".data)) ∧
    (∀ (e : Event) (b : App), e.apply a = some b →
      b.session.userInput = a.session.userInput ∨ b.session.userInput = "" ∨
        ∃ r, b.session.userInput = digitsOnly r) ∧
    (∀ c ∈ a.session.userInput.data, c ∈ "0123456789".data) := by
  refine ⟨?_, fun e b hb => userInput_assignments e a b hb, ?_⟩
  · simp only [digitsOnly]
    apply List.filter_congr
    intro c _
    by_cases hc : c ∈ "0123456789".data
    · rw [(isDigit_iff_mem c).mpr hc, decide_eq_true hc]
    · have hn : c.isDigit = false := by
        cases hd : c.isDigit
        · rfl
        · exact absurd ((isDigit_iff_mem c).mp hd) hc
      rw [hn, decide_eq_false hc]
  · intro c hc
    exact (isDigit_iff_mem c).mp (reachable_userInput_isDigit h c hc)

/-- C11 on the raw value `a1b 2-3`, which filters to `123`, and on the
configuration `wonFirstRound`, whose `userInput` is `7`. -/
theorem userInput_digits_witness :
    Reachable wonFirstRound ∧
    (digitsOnly "a1b 2-3").data = "123".data ∧
    (∀ c ∈ wonFirstRound.session.userInput.data, c ∈ "0123456789".data) :=
  ⟨reachableGated_reachable reachableGated_wonFirstRound,
    ((userInput_digits "a1b 2-3" wonFirstRound
      (reachableGated_reachable reachableGated_wonFirstRound)).1).trans (by decide),
    (userInput_digits "a1b 2-3" wonFirstRound
      (reachableGated_reachable reachableGated_wonFirstRound)).2.2⟩

/-! ## Timers under state gating -/

/-- No handler removes a pending timer: apart from a timer firing, every
event leaves the pending timers in place and at most appends to them. -/
theorem handlers_keep_timers (e : Event) (a b : App) (hne : ∀ i, e ≠ .timeout i)
    (h : e.apply a = some b) : ∃ l, b.timers = a.timers ++ l := by
  cases e with
  | startRound rand =>
      simp only [Event.apply, Option.some.injEq] at h
      subst h
      exact ⟨_, rfl⟩
  | timeout i => exact absurd rfl (hne i)
  | change raw =>
      simp only [Event.apply, Option.some.injEq] at h
      subst h
      exact ⟨[], (List.append_nil _).symm⟩
  | submit =>
      simp only [Event.apply, Option.some.injEq] at h
      subst h
      unfold handleSubmit
      split_ifs
      · exact ⟨[], (List.append_nil _).symm⟩
      · exact ⟨_, rfl⟩
      · exact ⟨[], (List.append_nil _).symm⟩
  | continueFromCurrentLevel =>
      simp only [Event.apply, Option.some.injEq] at h
      subst h
      exact ⟨[], (List.append_nil _).symm⟩
  | resetGame =>
      simp only [Event.apply, Option.some.injEq] at h
      subst h
      exact ⟨[], (List.append_nil _).symm⟩

/-- C12 fails for the controls the DOM offers.  The ready screen stays
mounted while it animates out, so its buttons can still be clicked in
`showing`.  The start button clicked twice from `initial` leaves two timers
pending, which state gating never reaches; the first to fire sets `input`
with a `showInput` timer still pending, and that one then runs in `input`.
At level 2, start followed by restart leaves the timer of `startRound`
pending in `ready`, and its firing flips the state to `input` with an empty
target. -/
theorem exiting_screen_counterexample :
    (startRound elevenSixteenths initial).session.gameState = .showing ∧
    Reachable doubleStart ∧
    doubleStart.timers =
      [{ callback := .showInput, delay := 2400 }, { callback := .showInput, delay := 2400 }] ∧
    ¬ doubleStart.timers.length ≤ 1 ∧
    ¬ ReachableGated doubleStart ∧
    fireTimer 0 doubleStart =
      some { session :=
              { gameState := .input, level := 1, targetNumber := "7", userInput := "",
                lastUserGuess := "" },
             timers := [{ callback := .showInput, delay := 2400 }] } ∧
    fireTimer 0
        { session :=
            { gameState := .input, level := 1, targetNumber := "7", userInput := "",
              lastUserGuess := "" },
          timers := [{ callback := .showInput, delay := 2400 }] } =
      some { session :=
              { gameState := .input, level := 1, targetNumber := "7", userInput := "",
                lastUserGuess := "" },
             timers := [] } ∧
    ReachableGated afterFirstRound ∧
    afterFirstRound.session.level = 2 ∧
    (startRound elevenSixteenths afterFirstRound).session.gameState = .showing ∧
    restartWhileShowing.session.gameState = .ready ∧
    restartWhileShowing.timers = [{ callback := .showInput, delay := 2800 }] ∧
    fireTimer 0 restartWhileShowing =
      some { session :=
              { gameState := .input, level := 1, targetNumber := "", userInput := "",
                lastUserGuess := "" },
             timers := [] } := by
  have hd : Reachable doubleStart :=
    Reachable.step (.startRound elevenSixteenths)
      (Reachable.step (.startRound elevenSixteenths) .init elevenSixteenths_valid rfl)
      elevenSixteenths_valid rfl
  refine ⟨rfl, hd, by decide, by decide, ?_, by decide, by decide,
    reachableGated_afterFirstRound, rfl, rfl, rfl, by decide, by decide⟩
  intro hg
  have hinv : doubleStart.timers =
        [{ callback := .showInput, delay := displayTime doubleStart.session.level }] ∧
      doubleStart.session.targetNumber.length = doubleStart.session.level :=
    reachableGated_invariant hg
  exact absurd hinv.1 (by decide)

/-- C12 as amended. No handler cancels a timer.  Under state gating (each
handler invoked only while `gameState` is a state whose screen draws its
control, each pending timer free to fire) at most one timer is pending in
every reachable configuration, the timer of `startRound` is pending exactly
in state `showing`, the timer of the success exactly in state `correct`,
and a timer that fires is the one of the current state: `showInput` runs in
`showing` and `nextLevel` runs in `correct`, leaving no timer pending.  The
handlers themselves do not enforce the gating: in whatever state it is
invoked, `startRound` sets `showing` and appends a timer, and `resetGame`
sets `ready` and keeps the pending timers. -/
theorem no_stale_timer (a : App) (h : ReachableGated a) :
    a.timers.length ≤ 1 ∧
    ((∃ t ∈ a.timers, t.callback = .showInput) ↔ a.session.gameState = .showing) ∧
    ((∃ t ∈ a.timers, t.callback = .nextLevel) ↔ a.session.gameState = .correct) ∧
    (∀ (e : Event) (b : App), (∀ i, e ≠ .timeout i) → e.apply a = some b →
      ∃ l, b.timers = a.timers ++ l) ∧
    (∀ (x : App) (rand : Nat → Draw),
      (startRound rand x).session.gameState = .showing ∧
      (startRound rand x).timers =
        x.timers ++ [{ callback := .showInput, delay := displayTime x.session.level }]) ∧
    (∀ x : App,
      (resetGame x).session.gameState = .ready ∧ (resetGame x).timers = x.timers) ∧
    (∀ (i : Nat) (b : App), fireTimer i a = some b →
      (a.session.gameState = .showing ∧
        a.timers.get? i =
          some { callback := .showInput, delay := displayTime a.session.level } ∧
        b.session = Callback.run .showInput a.session ∧ b.timers = []) ∨
      (a.session.gameState = .correct ∧
        a.timers.get? i = some { callback := .nextLevel, delay := 2000 } ∧
        b.session = Callback.run .nextLevel a.session ∧ b.timers = [])) := by
  have hinv := reachableGated_invariant h
  obtain ⟨⟨g, lvl, tgt, ui, lg⟩, ts⟩ := a
  refine ⟨?_, ?_, ?_, fun e b hne hb => handlers_keep_timers e _ b hne hb,
    fun _ _ => ⟨rfl, rfl⟩, fun _ => ⟨rfl, rfl⟩, ?_⟩
  · cases g <;> simp only [GatedInvariant] at hinv
    · simp [hinv]
    · simp [hinv.1]
    · simp [hinv.1]
    · simp [hinv.1]
    · simp [hinv.1]
  · cases g <;> simp only [GatedInvariant] at hinv
    · simp [hinv]
    · simp [hinv.1]
    · simp [hinv.1]
    · simp [hinv.1]
    · simp [hinv.1]
  · cases g <;> simp only [GatedInvariant] at hinv
    · simp [hinv]
    · simp [hinv.1]
    · simp [hinv.1]
    · simp [hinv.1]
    · simp [hinv.1]
  · intro i b hb
    simp only [fireTimer] at hb
    cases g <;> simp only [GatedInvariant] at hinv
    · subst hinv
      simp at hb
    · obtain ⟨rfl, -⟩ := hinv
      cases i with
      | zero =>
          simp at hb
          subst hb
          exact Or.inl ⟨rfl, rfl, rfl, rfl⟩
      | succ j => simp at hb
    · obtain ⟨rfl, -⟩ := hinv
      simp at hb
    · obtain ⟨rfl, -⟩ := hinv
      cases i with
      | zero =>
          simp at hb
          subst hb
          exact Or.inr ⟨rfl, rfl, rfl, rfl⟩
      | succ j => simp at hb
    · obtain ⟨rfl, -⟩ := hinv
      simp at hb

/-- C12 as amended, at `wonFirstRound`: one timer pending, the one of the
success, in state `correct`; none of `startRound`. -/
theorem no_stale_timer_witness :
    ReachableGated wonFirstRound ∧
    wonFirstRound.timers.length ≤ 1 ∧
    ((∃ t ∈ wonFirstRound.timers, t.callback = .showInput) ↔
      wonFirstRound.session.gameState = .showing) ∧
    ((∃ t ∈ wonFirstRound.timers, t.callback = .nextLevel) ↔
      wonFirstRound.session.gameState = .correct) :=
  ⟨reachableGated_wonFirstRound,
    (no_stale_timer wonFirstRound reachableGated_wonFirstRound).1,
    (no_stale_timer wonFirstRound reachableGated_wonFirstRound).2.1,
    (no_stale_timer wonFirstRound reachableGated_wonFirstRound).2.2.1⟩

end NumGame
